import Mathlib

/-!
Verification of the answer-selection and unit-normalization pipeline of the
NLP-Plant-Traits repository (notebook `Code/05. Numerical_Traits_QA.ipynb`).

The Python functions `QA_Prediction`, `is_float`, `post_process_answer_height`,
`post_process_answer_leaf_length`, `post_process_answer_leaf_width` and
`post_post_process_answer` are shallowly embedded below.  Python `str` is
modelled by `String` viewed as its list of characters; IEEE floating point is
modelled by exact rationals `ℚ` (all numeric literals reached by the claims are
small exact decimals, where `float` arithmetic, `np.round` and `str` agree with
the exact-decimal semantics modelled here); `float(...)`'s possible
`ValueError` is modelled by `Option ℚ`; the opaque QA model is a parameter of
type `String → String → String × ℚ`, and the calls made to it are returned
explicitly so that "no model call is made" is provable.
-/

/-- Model of Python `str.split(sep)` for a one-character separator, on the
character list: splitting keeps empty segments and always yields at least one
segment (`"".split(" ") = [""]`). -/
def splitCharAux (sep : Char) : List Char → List Char → List (List Char)
  | [], acc => [acc.reverse]
  | c :: rest, acc =>
    if c = sep then acc.reverse :: splitCharAux sep rest []
    else splitCharAux sep rest (c :: acc)

/-- Python `s.split(sep)` for a one-character separator `sep`. -/
def pySplit (sep : Char) (s : String) : List String :=
  (splitCharAux sep s.toList []).map String.mk

/-- The 32 characters of Python `string.punctuation`. -/
def punctuationChars : List Char :=
  ("!\"#$%&").toList ++ [Char.ofNat 39] ++ ("()*+,-./:;<=>?@[\\]^_\x60\x7b|\x7d~").toList

/-- Model of `answer.translate(str.maketrans('', '', string.punctuation))`:
every punctuation character is deleted (not replaced by a space). -/
def stripPunct (s : String) : String :=
  String.mk (s.toList.filter (fun c => !(punctuationChars.contains c)))

/-- Model of Python `" ".join(result)`. -/
def joinSpace : List String → String
  | [] => ""
  | [s] => s
  | s :: rest => s ++ " " ++ joinSpace rest

/-- Model of `answer.replace("-", " ")` (the replaced string is one character,
so this is a character map). -/
def replaceDash (s : String) : String :=
  String.mk (s.toList.map (fun c => if c = '-' then ' ' else c))

/-- Model of `re.sub("\(*?\)", "", answer)` — the pattern used in
`post_process_answer_height` and `post_process_answer_leaf_length`, which is
missing the dot of `\(.*?\)`: it matches a (possibly empty) run of `(`
immediately followed by one `)`, so the substitution deletes every `)`
together with the run of `(` characters directly in front of it, and never
deletes the text between brackets.  The first argument counts the pending run
of `(` characters just scanned. -/
def subNoDotAux : ℕ → List Char → List Char
  | run, [] => List.replicate run '('
  | run, c :: rest =>
    if c = '(' then subNoDotAux (run + 1) rest
    else if c = ')' then subNoDotAux 0 rest
    else List.replicate run '(' ++ c :: subNoDotAux 0 rest

/-- The bracket substitution of `post_process_answer_height` and
`post_process_answer_leaf_length` (pattern `\(*?\)`). -/
def removeBracketsNoDot (s : String) : String :=
  String.mk (subNoDotAux 0 s.toList)

/-- Model of `re.sub("\(.*?\)", "", answer)` — the pattern used in
`post_process_answer_leaf_width`: non-greedy removal of a bracket pair and
everything between (where `.` does not cross a newline).  The first argument
is `none` outside a candidate group and `some buf` (buffered characters in
reverse) after an as yet unclosed `(`. -/
def subDotAux : Option (List Char) → List Char → List Char
  | none, [] => []
  | none, c :: rest =>
    if c = '(' then subDotAux (some []) rest
    else c :: subDotAux none rest
  | some buf, [] => '(' :: buf.reverse
  | some buf, c :: rest =>
    if c = ')' then subDotAux none rest
    else if c = '\n' then ('(' :: buf.reverse) ++ '\n' :: subDotAux none rest
    else subDotAux (some (c :: buf)) rest

/-- The bracket substitution of `post_process_answer_leaf_width`
(pattern `\(.*?\)`). -/
def removeBracketsDot (s : String) : String :=
  String.mk (subDotAux none s.toList)

/-- Numeric value of a list of decimal digit characters
(the empty list gives 0). -/
def digitsToNat (l : List Char) : ℕ :=
  l.foldl (fun a c => 10 * a + (c.toNat - 48)) 0

/-- Unsigned mantissa of a Python float literal: `digits`, `digits.digits`,
`digits.` or `.digits` (at least one digit in total). -/
def parseUnsignedMantissa (cs : List Char) : Option ℚ :=
  let ip := cs.takeWhile Char.isDigit
  let rest := cs.dropWhile Char.isDigit
  match rest with
  | [] => if ip.isEmpty then none else some (digitsToNat ip : ℚ)
  | '.' :: frac =>
    if frac.all Char.isDigit && !(ip.isEmpty && frac.isEmpty) then
      some ((digitsToNat ip : ℚ) + (digitsToNat frac : ℚ) / (10 : ℚ) ^ frac.length)
    else none
  | _ => none

/-- Signed decimal exponent of a Python float literal. -/
def parseExponent (cs : List Char) : Option ℤ :=
  match cs with
  | '+' :: ds =>
    if !ds.isEmpty && ds.all Char.isDigit then some (digitsToNat ds : ℤ) else none
  | '-' :: ds =>
    if !ds.isEmpty && ds.all Char.isDigit then some (-(digitsToNat ds : ℤ)) else none
  | ds =>
    if !ds.isEmpty && ds.all Char.isDigit then some (digitsToNat ds : ℤ) else none

/-- Unsigned Python float literal: mantissa with optional `e`/`E` exponent. -/
def parseFloatChars (cs : List Char) : Option ℚ :=
  let mant := cs.takeWhile (fun c => c != 'e' && c != 'E')
  let rest := cs.dropWhile (fun c => c != 'e' && c != 'E')
  match rest with
  | [] => parseUnsignedMantissa mant
  | _ :: ex =>
    match parseUnsignedMantissa mant, parseExponent ex with
    | some m, some e => some (m * (10 : ℚ) ^ e)
    | _, _ => none

/-- Model of Python `float(s)` on the strings reaching it in this pipeline:
`some` of the exact value of a finite decimal literal with optional sign and
exponent, `none` where `float` raises `ValueError`.  (The `inf`/`nan` words
and digit-group underscores of the full Python grammar are outside the
rational model and do not occur in the pipeline's measurement tokens.) -/
def parseFloat (s : String) : Option ℚ :=
  match s.toList with
  | '+' :: cs => parseFloatChars cs
  | '-' :: cs => (parseFloatChars cs).map Neg.neg
  | cs => parseFloatChars cs

/-- Embedding of `is_float` (notebook cell 9): `True` exactly when `float`
succeeds, since the `try/except ValueError` returns `False` on failure. -/
def is_float (s : String) : Bool :=
  (parseFloat s).isSome

/-- Round to the nearest integer, ties to the even integer — the rounding of
`np.round` on exact values. -/
def roundHalfToEven (q : ℚ) : ℤ :=
  let f := ⌊q⌋
  if q - f < 1 / 2 then f
  else if q - f > 1 / 2 then f + 1
  else if f % 2 = 0 then f else f + 1

/-- Model of `np.round(q, d)` on exact rationals. -/
def np_round (q : ℚ) (d : ℕ) : ℚ :=
  (roundHalfToEven (q * 10 ^ d) : ℚ) / 10 ^ d

/-- Decimal digits of `n`, most significant first; the first argument is
structural fuel (any fuel above the digit count gives all digits). -/
def natDigitsAux : ℕ → ℕ → List Char
  | 0, _ => []
  | fuel + 1, n =>
    if n = 0 then [] else natDigitsAux fuel (n / 10) ++ [Char.ofNat (48 + n % 10)]

/-- Decimal string of a natural number. -/
def natToStr (n : ℕ) : String :=
  if n = 0 then "0" else String.mk (natDigitsAux (n + 1) n)

/-- The four decimal digits of `d < 10000` with trailing zeros stripped but at
least one digit kept — the fractional part printed by Python `str` on a float
that is an exact 4-decimal value. -/
def fracDigitsStr (d : ℕ) : String :=
  let ds := [Char.ofNat (48 + d / 1000 % 10), Char.ofNat (48 + d / 100 % 10),
             Char.ofNat (48 + d / 10 % 10), Char.ofNat (48 + d % 10)]
  let stripped := (ds.reverse.dropWhile (fun c => c == Char.ofNat 48)).reverse
  if stripped.isEmpty then "0" else String.mk stripped

/-- Model of Python `str(...)` on the floats produced by
`np.round(..., 4)`: sign, integer part, a dot, and the fractional digits with
trailing zeros stripped but at least one digit (`str(4.0) = "4.0"`,
`str(0.37) = "0.37"`).  Exact for 4-decimal values in the range where Python
prints positional (not scientific) notation, which covers every value the
claims evaluate. -/
def formatRat (q : ℚ) : String :=
  let sgn := if q < 0 then "-" else ""
  let a := if q < 0 then -q else q
  sgn ++ natToStr (⌊a⌋).toNat ++ "." ++ fracDigitsStr (⌊(a - ⌊a⌋) * 10000⌋).toNat

/-- The fixed unit tuple `available_units` shared by the three
`post_process_answer_*` functions, in its priority order. -/
def available_units : List String :=
  ["mm", "cm", "m", "km", "inches", "ft", "yds", "miles"]

/-- The `conversion_dict` built from `available_units` and `conversions`:
exact millimetre factors (`25.4 = 254/10`, `1.609344e6 = 1609344`). -/
def conversion_dict (u : String) : ℚ :=
  if u = "mm" then 1
  else if u = "cm" then 10
  else if u = "m" then 1000
  else if u = "km" then 1000000
  else if u = "inches" then 254 / 10
  else if u = "ft" then 3048 / 10
  else if u = "yds" then 9144 / 10
  else if u = "miles" then 1609344
  else 0

/-- The unit-detection loop of `post_process_answer_height`: scan
`available_units` in order for a unit that is a whitespace token of the
punctuation-stripped answer and `break` on the first match (`none` models
`flag == 0`). -/
def findUnitBreak (tokens : List String) : Option String :=
  available_units.find? (fun u => tokens.contains u)

/-- The unit-detection loop of `post_process_answer_leaf_length` and
`post_process_answer_leaf_width`: the same scan but — unlike the height
variant — without `break`, so every later match overwrites `metric` and the
last matching unit in priority order wins. -/
def findUnitNoBreak (tokens : List String) : Option String :=
  available_units.foldl (fun acc u => if tokens.contains u then some u else acc) none

/-- The shared numeric loop of the three `post_process_answer_*` functions:
walk the parts; before looking at each part, return the `"Too many numbers"`
sentinel (`none`) if `counter > 2`; convert each part that `is_float` by
`factor` with `np.round(..., 4)` and append its `str` to the result. -/
def convertParts (factor : ℚ) : List String → ℕ → List String → Option (List String)
  | [], _, result => some result
  | part :: rest, counter, result =>
    if counter > 2 then none
    else
      match parseFloat part with
      | some v => convertParts factor rest (counter + 1) (result ++ [formatRat (np_round (v * factor) 4)])
      | none => convertParts factor rest counter result

/-- Embedding of `post_process_answer_height` (notebook cell 10,
lines 178-220): detect the unit on the punctuation-stripped tokens (first
match wins), apply the `\(*?\)` substitution and the dash replacement to the
original answer, and convert each float token by `rate/1000` (metres). -/
def post_process_answer_height (answer : String) : String :=
  match findUnitBreak (pySplit ' ' (stripPunct answer)) with
  | none => "No metric"
  | some metric =>
    let answer1 := removeBracketsNoDot answer
    let answer2 := replaceDash answer1
    match convertParts (conversion_dict metric / 1000) (pySplit ' ' answer2) 0 [] with
    | none => "Too many numbers"
    | some result => joinSpace result

/-- Embedding of `post_process_answer_leaf_length` (notebook cell 10,
lines 223-265): as for height, but the unit loop has no `break` (the last
matching unit wins), if `"x"` occurs in the answer only
`answer.split("x")[0]` is kept before the substitutions, and conversion is by
`rate/10` (centimetres). -/
def post_process_answer_leaf_length (answer : String) : String :=
  match findUnitNoBreak (pySplit ' ' (stripPunct answer)) with
  | none => "No metric"
  | some metric =>
    let answer0 := if answer.toList.contains 'x' then (pySplit 'x' answer).headD "" else answer
    let answer1 := removeBracketsNoDot answer0
    let answer2 := replaceDash answer1
    match convertParts (conversion_dict metric / 10) (pySplit ' ' answer2) 0 [] with
    | none => "Too many numbers"
    | some result => joinSpace result

/-- Embedding of `post_process_answer_leaf_width` (notebook cell 10,
lines 267-309): the unit scan has no `break` (last match wins), the kept
segment is `answer.split("x")[1]`, and the bracket pattern is the complete
`\(.*?\)`. -/
def post_process_answer_leaf_width (answer : String) : String :=
  match findUnitNoBreak (pySplit ' ' (stripPunct answer)) with
  | none => "No metric"
  | some metric =>
    let answer0 := if answer.toList.contains 'x' then (pySplit 'x' answer).getD 1 "" else answer
    let answer1 := removeBracketsDot answer0
    let answer2 := replaceDash answer1
    match convertParts (conversion_dict metric / 10) (pySplit ' ' answer2) 0 [] with
    | none => "Too many numbers"
    | some result => joinSpace result

/-- Embedding of `post_post_process_answer` (notebook cell 10,
lines 311-330): split on spaces; one float part returns that float, two float
parts return the second, anything else returns `-1`. -/
def post_post_process_answer (answer : String) : ℚ :=
  let answer_parts := pySplit ' ' answer
  if answer_parts.length == 1 && is_float (answer_parts.getD 0 "") then
    (parseFloat (answer_parts.getD 0 "")).getD 0
  else if answer_parts.length == 2 && is_float (answer_parts.getD 0 "")
      && is_float (answer_parts.getD 1 "") then
    (parseFloat (answer_parts.getD 1 "")).getD 0
  else -1

/-- The scan underlying `np.argmax` over the score list: a running best index
and best value, updated only on a strictly greater score (`bv < x`), so the
first occurrence of the maximum is kept. -/
def np_argmaxAux : List ℚ → ℕ → ℕ → ℚ → ℕ × ℚ
  | [], _, bi, bv => (bi, bv)
  | x :: xs, i, bi, bv =>
    if bv < x then np_argmaxAux xs (i + 1) i x else np_argmaxAux xs (i + 1) bi bv

/-- Model of `np.argmax(score_list)`: index of the first maximum, `none` on
the empty list (where NumPy raises `ValueError`). -/
def np_argmax : List ℚ → Option ℕ
  | [] => none
  | x :: xs => some ((np_argmaxAux xs 1 0 x).1)

/-- Model of Python `str.isdigit` on a single character, exact on ASCII text:
there `isdigit` holds exactly of `0`-`9`.  On some non-ASCII characters
Python's unicode-aware `isdigit` also holds (e.g. superscript digits), which
this model does not cover; theorems about the digit guard therefore restrict
the description to ASCII characters, where the model is exact. -/
def pyIsDigit (c : Char) : Bool :=
  c.isDigit

/-- Embedding of `QA_Prediction` (notebook cell 8).  `Description` is
`Option String` (`none` models a non-`str` value such as pandas `NaN`); the
QA pipeline is the parameter `model_pipeline`; the second component of the
result is the list of `(question, context)` calls issued to it, so the early
returns are visibly call-free.  The overall `Option` is `none` exactly where
the Python code raises (`np.argmax` of an empty list when `Questions` is
empty and the description is a digit-containing string); `np.round(score, 3)`
is `np_round · 3`. -/
def QA_Prediction (Questions : List String) (Description : Option String)
    (model_pipeline : String → String → String × ℚ) :
    Option ((String × String × ℚ) × List (String × String)) :=
  match Description with
  | none => some (("", "No Description", 0), [])
  | some desc =>
    if !(desc.toList.any pyIsDigit) then some (("", "No Number", 0), [])
    else
      match np_argmax (Questions.map (fun q => np_round (model_pipeline q desc).2 3)) with
      | none => none
      | some best_answer_i =>
        some ((Questions.getD best_answer_i "",
               (Questions.map (fun q => (model_pipeline q desc).1)).getD best_answer_i "",
               (Questions.map (fun q => np_round (model_pipeline q desc).2 3)).getD
                 best_answer_i 0),
              Questions.map (fun q => (q, desc)))

/-- Claim C1's failing input: with a third numeric token in final position the
height parser returns a three-value measurement instead of the
`"Too many numbers"` sentinel (the `counter > 2` guard runs before the third
append, so the sentinel needs a further part after the third number, as in the
second conjunct). -/
theorem C1_third_number_kept :
    post_process_answer_height "cm 1 2 3" = "0.01 0.02 0.03" ∧
    post_process_answer_height "1 2 3 cm" = "Too many numbers" := by
  constructor <;> with_unfolding_all decide

/-- Claim C5's failing input: the Height variant's substitution pattern
`\(*?\)` (missing the dot of `\(.*?\)`) does not remove bracketed content, so
the parenthetical number 5 contributes to the measurement; the LeafWidth
variant, whose pattern is the complete `\(.*?\)`, removes it. -/
theorem C5_parenthetical_number_contributes :
    post_process_answer_height "( 5 ) m" = "5.0" ∧
    post_process_answer_leaf_width "( 5 ) m" = "" := by
  constructor <;> with_unfolding_all decide

/-- Claim C6: for the Height trait, `"20-37 cm"` normalizes to `"0.2 0.37"`
and resolves to `0.37`, and `"1.8 m"` normalizes to `"1.8"` and resolves to
`1.8`. -/
theorem C6_height_roundtrip :
    post_process_answer_height "20-37 cm" = "0.2 0.37" ∧
    post_post_process_answer "0.2 0.37" = 37 / 100 ∧
    post_process_answer_height "1.8 m" = "1.8" ∧
    post_post_process_answer "1.8" = 9 / 5 := by
  refine ⟨?_, ?_, ?_, ?_⟩ <;> with_unfolding_all decide

/-- Claim C7: on `"20-40x10-30 mm"` the LeafLength parser keeps the segment
before the first `x` and yields `"2.0 4.0"` resolving to `4.0`, and the
LeafWidth parser keeps the segment after the first `x` and yields `"1.0 3.0"`
resolving to `3.0` (the unit `mm`, which occurs only after the `x`, is found
because detection runs on the unsplit text). -/
theorem C7_leaf_compound_roundtrip :
    post_process_answer_leaf_length "20-40x10-30 mm" = "2.0 4.0" ∧
    post_post_process_answer "2.0 4.0" = 4 ∧
    post_process_answer_leaf_width "20-40x10-30 mm" = "1.0 3.0" ∧
    post_post_process_answer "1.0 3.0" = 3 := by
  refine ⟨?_, ?_, ?_, ?_⟩ <;> with_unfolding_all decide

/-- Claim C9 is false as stated: unit detection is not independent of letter
case — upper-casing the unit token changes the result from `"0.2"` to the
`"No metric"` sentinel. -/
theorem C9_case_counterexample :
    post_process_answer_height "20 CM" = "No metric" ∧
    post_process_answer_height "20 cm" = "0.2" := by
  constructor <;> with_unfolding_all decide


/-- Claim C3: the Selector short-circuits on a missing description and on a
digit-free description, returning the respective sentinel triple with an empty
call list, i.e. without invoking the QA capability.  The description is
restricted to ASCII characters, the domain on which `pyIsDigit` models
Python's unicode-aware `str.isdigit` exactly, so "contains no digit
character" below coincides with the code's `any(map(str.isdigit, ...))`
guard. -/
theorem C3_selector_short_circuits (Questions : List String)
    (model_pipeline : String → String → String × ℚ) (desc : String)
    (hascii : desc.toList.all (fun c => c.toNat < 128) = true)
    (hnd : desc.toList.any pyIsDigit = false) :
    QA_Prediction Questions none model_pipeline = some (("", "No Description", 0), []) ∧
    QA_Prediction Questions (some desc) model_pipeline = some (("", "No Number", 0), []) := by
  refine ⟨rfl, ?_⟩
  simp only [QA_Prediction]
  rw [hnd]
  rfl

/-- Witness for C3 on a concrete ASCII digit-free description and question
set. -/
theorem C3_selector_short_circuits_witness :
    ("no digits here".toList.all (fun c => c.toNat < 128) = true) ∧
    ("no digits here".toList.any pyIsDigit = false) ∧
    QA_Prediction ["How tall is the plant?"] none (fun q _ => (q, 1)) =
      some (("", "No Description", 0), []) ∧
    QA_Prediction ["How tall is the plant?"] (some "no digits here") (fun q _ => (q, 1)) =
      some (("", "No Number", 0), []) :=
  ⟨by decide, by decide,
   (C3_selector_short_circuits ["How tall is the plant?"] (fun q _ => (q, 1))
     "no digits here" (by decide) (by decide)).1,
   (C3_selector_short_circuits ["How tall is the plant?"] (fun q _ => (q, 1))
     "no digits here" (by decide) (by decide)).2⟩

/-- A `find?` scan returns the first element of the filtered list. -/
theorem find?_eq_head_filter {α : Type} (p : α → Bool) (l : List α) :
    l.find? p = (l.filter p).head? := by
  induction l with
  | nil => rfl
  | cons a l ih =>
    by_cases h : p a
    · rw [List.find?_cons_of_pos _ h, List.filter_cons_of_pos h, List.head?_cons]
    · rw [List.find?_cons_of_neg _ (by simp [h]), List.filter_cons_of_neg (by simp [h]), ih]

/-- An overwrite-on-match fold returns the last element of the filtered list,
falling back to the accumulator. -/
theorem foldl_overwrite_eq_getLast_filter {α : Type} (p : α → Bool) (l : List α) :
    ∀ acc : Option α,
      l.foldl (fun a u => if p u then some u else a) acc = ((l.filter p).getLast?).or acc := by
  induction l with
  | nil => intro acc; rfl
  | cons a l ih =>
    intro acc
    by_cases h : p a
    · rw [List.foldl_cons, if_pos h, List.filter_cons_of_pos h, ih (some a)]
      cases hfl : l.filter p with
      | nil => rfl
      | cons b fl =>
        rw [List.getLast?_cons_cons]
        cases hbl : (b :: fl).getLast? with
        | none => simp at hbl
        | some x => rfl
    · rw [List.foldl_cons, if_neg h, List.filter_cons_of_neg (by simp [h]), ih acc]

/-- Claim C2 is false as stated: the LeafLength unit loop has no `break`
(only the Height variant's loop does), so on `"5 mm 2 cm"` — where both `mm`
and `cm` are tokens and `mm` comes first in priority order — the LeafLength
parser converts by the *last* match `cm` (giving `"5.0 2.0"`, not the
mm-based `"0.5 0.2"` a first-match scan would give), while the Height parser
converts by the first match `mm`.  The last two conjuncts exhibit the two
scans directly on these tokens. -/
theorem C2_leaf_length_last_match :
    post_process_answer_leaf_length "5 mm 2 cm" = "5.0 2.0" ∧
    post_process_answer_height "5 mm 2 cm" = "0.005 0.002" ∧
    findUnitNoBreak ["5", "mm", "2", "cm"] = some "cm" ∧
    findUnitBreak ["5", "mm", "2", "cm"] = some "mm" := by
  refine ⟨?_, ?_, ?_, ?_⟩ <;> with_unfolding_all decide

/-- Claim C2 amended: all three unit scans run over the fixed priority list
`mm, cm, m, km, inches, ft, yds, miles`; the Height scan (which `break`s)
returns the first unit of the priority order matching a token, while the
LeafLength and LeafWidth scans (which do not `break`) return the last
matching unit of the priority order. -/
theorem C2_unit_scan_order :
    available_units = ["mm", "cm", "m", "km", "inches", "ft", "yds", "miles"] ∧
    ∀ tokens : List String,
      findUnitBreak tokens =
        (available_units.filter (fun u => tokens.contains u)).head? ∧
      findUnitNoBreak tokens =
        (available_units.filter (fun u => tokens.contains u)).getLast? := by
  refine ⟨rfl, fun tokens => ⟨?_, ?_⟩⟩
  · exact find?_eq_head_filter _ _
  · rw [findUnitNoBreak, foldl_overwrite_eq_getLast_filter]
    exact Option.or_none

/-- Splitting a list without the separator yields one segment. -/
theorem splitCharAux_no_sep (sep : Char) :
    ∀ (l acc : List Char), (∀ c ∈ l, c ≠ sep) →
      splitCharAux sep l acc = [acc.reverse ++ l] := by
  intro l
  induction l with
  | nil => intro acc _; simp [splitCharAux]
  | cons c l ih =>
    intro acc h
    rw [splitCharAux, if_neg (h c (List.mem_cons_self c l)), ih (c :: acc) (fun d hd => h d (List.mem_cons_of_mem c hd))]
    simp

/-- Splitting around a single separator occurrence separates the two sides. -/
theorem splitCharAux_sep_middle (sep : Char) :
    ∀ (l₁ l₂ acc : List Char), (∀ c ∈ l₁, c ≠ sep) →
      splitCharAux sep (l₁ ++ sep :: l₂) acc =
        (acc.reverse ++ l₁) :: splitCharAux sep l₂ [] := by
  intro l₁
  induction l₁ with
  | nil => intro l₂ acc _; simp [splitCharAux]
  | cons c l₁ ih =>
    intro l₂ acc h
    rw [List.cons_append, splitCharAux, if_neg (h c (List.mem_cons_self c l₁)),
      ih l₂ (c :: acc) (fun d hd => h d (List.mem_cons_of_mem c hd))]
    simp

/-- Python `u.split(" ")` on a space-free string is the singleton `[u]`. -/
theorem pySplit_no_space (u : String) (h : ' ' ∉ u.toList) : pySplit ' ' u = [u] := by
  rw [pySplit, splitCharAux_no_sep ' ' u.toList [] (fun c hc hceq => h (hceq ▸ hc))]
  rfl

/-- Python `(s + " " + t).split(" ")` for space-free `s`, `t` is `[s, t]`. -/
theorem pySplit_space_pair (s t : String) (hs : ' ' ∉ s.toList) (ht : ' ' ∉ t.toList) :
    pySplit ' ' (s ++ " " ++ t) = [s, t] := by
  have hdata : (s ++ " " ++ t).toList = s.toList ++ ' ' :: t.toList := by
    show (s ++ " " ++ t).data = s.data ++ ' ' :: t.data
    rw [String.data_append, String.data_append]
    simp
  rw [pySplit, hdata,
    splitCharAux_sep_middle ' ' s.toList t.toList [] (fun c hc hceq => hs (hceq ▸ hc)),
    splitCharAux_no_sep ' ' t.toList [] (fun c hc hceq => ht (hceq ▸ hc))]
  rfl

/-- Claim C4: the Value Resolver returns `-1` on the sentinel tags, on the
empty string, on a single element that fails to parse, and on any shape other
than one or two float elements; it returns the parsed element for exactly one
float element (identity on a resolved scalar wrapped as a one-element
sequence) and the parsed second element for exactly two. -/
theorem C4_value_resolver (s t : String) (q r : ℚ)
    (hs : ' ' ∉ s.toList) (ht : ' ' ∉ t.toList)
    (hq : parseFloat s = some q) (hr : parseFloat t = some r) :
    post_post_process_answer "No metric" = -1 ∧
    post_post_process_answer "Too many numbers" = -1 ∧
    post_post_process_answer "" = -1 ∧
    (∀ u : String, ' ' ∉ u.toList → parseFloat u = none →
      post_post_process_answer u = -1) ∧
    (∀ u : String,
      ¬ ((pySplit ' ' u).length = 1 ∧ is_float ((pySplit ' ' u).getD 0 "") = true) →
      ¬ ((pySplit ' ' u).length = 2 ∧ is_float ((pySplit ' ' u).getD 0 "") = true ∧
          is_float ((pySplit ' ' u).getD 1 "") = true) →
      post_post_process_answer u = -1) ∧
    post_post_process_answer s = q ∧
    post_post_process_answer (s ++ " " ++ t) = r := by
  refine ⟨by decide, by decide, by decide, ?_, ?_, ?_, ?_⟩
  · intro u hu hpf
    rw [post_post_process_answer, pySplit_no_space u hu]
    simp [is_float, hpf]
  · intro u h1 h2
    rw [post_post_process_answer]
    split_ifs with hA hB
    · exact absurd (by simpa [Bool.and_eq_true, beq_iff_eq] using hA) h1
    · exact absurd (by simpa [Bool.and_eq_true, beq_iff_eq, and_assoc] using hB) h2
    · rfl
  · rw [post_post_process_answer, pySplit_no_space s hs]
    simp [is_float, hq]
  · rw [post_post_process_answer, pySplit_space_pair s t hs ht]
    simp [is_float, hq, hr]

/-- Witness for C4 at the concrete float tokens `"7"` and `"9"`. -/
theorem C4_value_resolver_witness :
    (' ' ∉ "7".toList) ∧ (' ' ∉ "9".toList) ∧
    parseFloat "7" = some 7 ∧ parseFloat "9" = some 9 ∧
    post_post_process_answer "7" = 7 ∧ post_post_process_answer "7 9" = 9 :=
  ⟨by decide, by decide, by decide, by decide,
   (C4_value_resolver "7" "9" 7 9 (by decide) (by decide) (by decide) (by decide)).2.2.2.2.2.1,
   (C4_value_resolver "7" "9" 7 9 (by decide) (by decide) (by decide) (by decide)).2.2.2.2.2.2⟩

/-- A split never produces the empty list of segments. -/
theorem splitCharAux_ne_nil (sep : Char) :
    ∀ (l acc : List Char), splitCharAux sep l acc ≠ [] := by
  intro l
  induction l with
  | nil => intro acc; simp [splitCharAux]
  | cons c l ih =>
    intro acc
    rw [splitCharAux]
    split
    · simp
    · exact ih (c :: acc)

/-- Claim C10: the Value Resolver is total on every string: splitting on
spaces always yields at least one part, and the result is either the sentinel
`-1` or the parsed float value of one of the parts (the `is_float` check
absorbs every parse failure). -/
theorem C10_resolver_total (s : String) :
    pySplit ' ' s ≠ [] ∧
    (post_post_process_answer s = -1 ∨
      ∃ t ∈ pySplit ' ' s, parseFloat t = some (post_post_process_answer s)) := by
  constructor
  · rw [pySplit]
    intro h
    exact splitCharAux_ne_nil ' ' s.toList [] (List.map_eq_nil_iff.mp h)
  · rw [post_post_process_answer]
    split_ifs with hA hB
    · right
      rw [Bool.and_eq_true, beq_iff_eq] at hA
      obtain ⟨a, ha⟩ := List.length_eq_one.mp hA.1
      have hget : (pySplit ' ' s).getD 0 "" = a := by rw [ha]; rfl
      rw [hget] at hA ⊢
      rw [is_float] at hA
      obtain ⟨v, hv⟩ := Option.isSome_iff_exists.mp hA.2
      exact ⟨a, by rw [ha]; exact List.mem_cons_self a [], by rw [hv]; rfl⟩
    · right
      rw [Bool.and_eq_true, Bool.and_eq_true, beq_iff_eq] at hB
      obtain ⟨a, b, hab⟩ := List.length_eq_two.mp hB.1.1
      have hget : (pySplit ' ' s).getD 1 "" = b := by rw [hab]; rfl
      rw [hget] at hB ⊢
      rw [is_float] at hB
      obtain ⟨v, hv⟩ := Option.isSome_iff_exists.mp hB.2
      exact ⟨b, by rw [hab]; exact List.mem_cons_of_mem a (List.mem_cons_self b []),
        by rw [hv]; rfl⟩
    · left; rfl

/-- Invariant of the `np.argmax` scan: the result is either the incoming best
pair (when nothing beats it) or the first list position strictly beating the
incoming best whose value is the maximum of the list. -/
theorem np_argmaxAux_spec (l : List ℚ) :
    ∀ (i bi : ℕ) (bv : ℚ),
      (np_argmaxAux l i bi bv = (bi, bv) ∧ ∀ k, k < l.length → l.getD k 0 ≤ bv) ∨
      (∃ k, k < l.length ∧ np_argmaxAux l i bi bv = (i + k, l.getD k 0) ∧
        bv < l.getD k 0 ∧
        (∀ j, j < l.length → l.getD j 0 ≤ l.getD k 0) ∧
        (∀ j, j < k → l.getD j 0 < l.getD k 0)) := by
  induction l with
  | nil =>
    intro i bi bv
    exact Or.inl ⟨rfl, fun k hk => absurd hk (by simp)⟩
  | cons x xs ih =>
    intro i bi bv
    rw [np_argmaxAux]
    by_cases hx : bv < x
    · rw [if_pos hx]
      rcases ih (i + 1) i x with ⟨heq, hall⟩ | ⟨k, hk, heq, hlt, hmax, hfirst⟩
      · refine Or.inr ⟨0, by simp, ?_, by simpa using hx, ?_, ?_⟩
        · rw [heq, List.getD_cons_zero, Nat.add_zero]
        · intro j hj
          cases j with
          | zero => simp
          | succ m =>
            rw [List.getD_cons_succ, List.getD_cons_zero]
            exact hall m (by simpa using hj)
        · intro j hj
          exact absurd hj (Nat.not_lt_zero j)
      · refine Or.inr ⟨k + 1, by simpa using hk, ?_, ?_, ?_, ?_⟩
        · rw [heq, List.getD_cons_succ]
          congr 1
          omega
        · rw [List.getD_cons_succ]
          exact lt_trans hx hlt
        · intro j hj
          cases j with
          | zero =>
            rw [List.getD_cons_zero, List.getD_cons_succ]
            exact le_of_lt hlt
          | succ m =>
            rw [List.getD_cons_succ, List.getD_cons_succ]
            exact hmax m (by simpa using hj)
        · intro j hj
          cases j with
          | zero =>
            rw [List.getD_cons_zero, List.getD_cons_succ]
            exact hlt
          | succ m =>
            rw [List.getD_cons_succ, List.getD_cons_succ]
            exact hfirst m (by omega)
    · rw [if_neg hx]
      rcases ih (i + 1) bi bv with ⟨heq, hall⟩ | ⟨k, hk, heq, hlt, hmax, hfirst⟩
      · refine Or.inl ⟨heq, ?_⟩
        intro k hk
        cases k with
        | zero =>
          rw [List.getD_cons_zero]
          exact le_of_not_lt hx
        | succ m =>
          rw [List.getD_cons_succ]
          exact hall m (by simpa using hk)
      · refine Or.inr ⟨k + 1, by simpa using hk, ?_, ?_, ?_, ?_⟩
        · rw [heq, List.getD_cons_succ]
          congr 1
          omega
        · rw [List.getD_cons_succ]
          exact hlt
        · intro j hj
          cases j with
          | zero =>
            rw [List.getD_cons_zero, List.getD_cons_succ]
            exact le_trans (le_of_not_lt hx) (le_of_lt hlt)
          | succ m =>
            rw [List.getD_cons_succ, List.getD_cons_succ]
            exact hmax m (by simpa using hj)
        · intro j hj
          cases j with
          | zero =>
            rw [List.getD_cons_zero, List.getD_cons_succ]
            exact lt_of_le_of_lt (le_of_not_lt hx) hlt
          | succ m =>
            rw [List.getD_cons_succ, List.getD_cons_succ]
            exact hfirst m (by omega)

/-- On a nonempty list, `np_argmax` returns an in-range index holding the
maximum value, with every earlier entry strictly below it (first maximum). -/
theorem np_argmax_spec (x : ℚ) (xs : List ℚ) :
    ∃ bi, np_argmax (x :: xs) = some bi ∧ bi < (x :: xs).length ∧
      (∀ j, j < (x :: xs).length → (x :: xs).getD j 0 ≤ (x :: xs).getD bi 0) ∧
      (∀ j, j < bi → (x :: xs).getD j 0 < (x :: xs).getD bi 0) := by
  have hunfold : np_argmax (x :: xs) = some ((np_argmaxAux xs 1 0 x).1) := rfl
  rcases np_argmaxAux_spec xs 1 0 x with ⟨heq, hall⟩ | ⟨k, hk, heq, hlt, hmax, hfirst⟩
  · refine ⟨0, by rw [hunfold, heq], by simp, ?_, ?_⟩
    · intro j hj
      cases j with
      | zero => simp
      | succ m =>
        rw [List.getD_cons_succ, List.getD_cons_zero]
        exact hall m (by simpa using hj)
    · intro j hj
      exact absurd hj (Nat.not_lt_zero j)
  · refine ⟨k + 1, by rw [hunfold, heq]; congr 2; omega, by simpa using hk, ?_, ?_⟩
    · intro j hj
      cases j with
      | zero =>
        rw [List.getD_cons_zero, List.getD_cons_succ]
        exact le_of_lt hlt
      | succ m =>
        rw [List.getD_cons_succ, List.getD_cons_succ]
        exact hmax m (by simpa using hj)
    · intro j hj
      cases j with
      | zero =>
        rw [List.getD_cons_zero, List.getD_cons_succ]
        exact hlt
      | succ m =>
        rw [List.getD_cons_succ, List.getD_cons_succ]
        exact hfirst m (by omega)

/-- Getting from a mapped list at an in-range index is mapping the element. -/
theorem getD_map_of_lt {α β : Type} (f : α → β) :
    ∀ (l : List α) (n : ℕ), n < l.length → ∀ (d : β) (d' : α),
      (l.map f).getD n d = f (l.getD n d') := by
  intro l
  induction l with
  | nil => intro n hn; simp at hn
  | cons a l ih =>
    intro n hn d d'
    cases n with
    | zero => rfl
    | succ m =>
      rw [List.map_cons, List.getD_cons_succ, List.getD_cons_succ]
      exact ih m (by simpa using hn) d d'

/-- Claim C8: on a digit-containing description the Selector calls the QA
capability once per question in list order (the call list is exactly
`Questions` zipped with the description), records the scores rounded to 3
decimal places, and returns the question/answer/score triple at an in-range
index `bi` carrying the maximum rounded score, with every earlier question's
rounded score strictly smaller (first-occurrence tie-breaking). -/
theorem C8_selector_argmax (Questions : List String)
    (model_pipeline : String → String → String × ℚ) (desc : String)
    (hdig : desc.toList.any Char.isDigit = true) (hne : Questions ≠ []) :
    ∃ bi, bi < Questions.length ∧
      QA_Prediction Questions (some desc) model_pipeline =
        some ((Questions.getD bi "",
               (model_pipeline (Questions.getD bi "") desc).1,
               (Questions.map (fun q => np_round (model_pipeline q desc).2 3)).getD bi 0),
              Questions.map (fun q => (q, desc))) ∧
      (∀ j, j < Questions.length →
        (Questions.map (fun q => np_round (model_pipeline q desc).2 3)).getD j 0 ≤
          (Questions.map (fun q => np_round (model_pipeline q desc).2 3)).getD bi 0) ∧
      (∀ j, j < bi →
        (Questions.map (fun q => np_round (model_pipeline q desc).2 3)).getD j 0 <
          (Questions.map (fun q => np_round (model_pipeline q desc).2 3)).getD bi 0) := by
  cases Questions with
  | nil => exact absurd rfl hne
  | cons q qs =>
    obtain ⟨bi, hargmax, hlt, hmax, hfirst⟩ :=
      np_argmax_spec (np_round (model_pipeline q desc).2 3)
        (qs.map (fun q' => np_round (model_pipeline q' desc).2 3))
    have hlen : ((np_round (model_pipeline q desc).2 3) ::
        qs.map (fun q' => np_round (model_pipeline q' desc).2 3)).length =
        (q :: qs).length := by simp
    refine ⟨bi, by rw [← hlen]; exact hlt, ?_, ?_, ?_⟩
    · have hans : ((model_pipeline q desc).1 ::
          qs.map (fun q' => (model_pipeline q' desc).1)).getD bi "" =
          (model_pipeline ((q :: qs).getD bi "") desc).1 := by
        show ((q :: qs).map (fun q' => (model_pipeline q' desc).1)).getD bi "" =
          (model_pipeline ((q :: qs).getD bi "") desc).1
        exact getD_map_of_lt (fun q' => (model_pipeline q' desc).1) (q :: qs) bi
          (by rw [← hlen]; exact hlt) "" ""
      have hdig' : desc.toList.any pyIsDigit = true := hdig
      simp only [QA_Prediction, List.map_cons, hdig', Bool.not_true, Bool.false_eq_true,
        if_false, hargmax, hans]
    · intro j hj
      simp only [List.map_cons]
      exact hmax j (by rw [hlen]; exact hj)
    · intro j hj
      simp only [List.map_cons]
      exact hfirst j hj

/-- Witness for C8 on a two-question set and a deterministic stub pipeline. -/
theorem C8_selector_argmax_witness :
    ("5 m".toList.any Char.isDigit = true) ∧
    ((["q1", "q2"] : List String) ≠ []) ∧
    ∃ bi, bi < (["q1", "q2"] : List String).length ∧
      (QA_Prediction ["q1", "q2"] (some "5 m")
          (fun q' _ => (q', if q' = "q1" then 0 else 1))).isSome = true := by
  refine ⟨by decide, by decide, ?_⟩
  obtain ⟨bi, hlt, heq, -, -⟩ :=
    C8_selector_argmax ["q1", "q2"] (fun q' _ => (q', if q' = "q1" then 0 else 1)) "5 m"
      (by decide) (by decide)
  exact ⟨bi, hlt, by rw [heq]; rfl⟩

/-- Characters of a two-string concatenation. -/
theorem mem_toList_append {s t : String} {c : Char} :
    c ∈ (s ++ t).toList ↔ c ∈ s.toList ∨ c ∈ t.toList := by
  show c ∈ (s ++ t).data ↔ c ∈ s.data ∨ c ∈ t.data
  rw [String.data_append, List.mem_append]

/-- A decimal digit character is not the letter `N`. -/
theorem digitChar_ne_N (d : ℕ) (hd : d < 10) : Char.ofNat (48 + d) ≠ 'N' := by
  interval_cases d <;> decide

/-- Every character written by `natDigitsAux` is a digit, hence not `N`. -/
theorem natDigitsAux_mem (fuel : ℕ) :
    ∀ (n : ℕ) (c : Char), c ∈ natDigitsAux fuel n → c ≠ 'N' := by
  induction fuel with
  | zero => intro n c hc; simp [natDigitsAux] at hc
  | succ fuel ih =>
    intro n c hc
    rw [natDigitsAux] at hc
    by_cases hn : n = 0
    · rw [if_pos hn] at hc; simp at hc
    · rw [if_neg hn] at hc
      rcases List.mem_append.mp hc with h | h
      · exact ih _ _ h
      · rw [List.mem_singleton] at h
        subst h
        exact digitChar_ne_N (n % 10) (Nat.mod_lt _ (by omega))

/-- Every character of `natToStr n` is a digit, hence not `N`. -/
theorem natToStr_mem (n : ℕ) (c : Char) (hc : c ∈ (natToStr n).toList) : c ≠ 'N' := by
  rw [natToStr] at hc
  by_cases hn : n = 0
  · rw [if_pos hn] at hc
    have hc0 : c = '0' := by simpa using hc
    subst hc0; decide
  · rw [if_neg hn] at hc
    exact natDigitsAux_mem (n + 1) n c hc

/-- Every character of `fracDigitsStr d` is a digit, hence not `N`. -/
theorem fracDigitsStr_mem (d : ℕ) (c : Char) (hc : c ∈ (fracDigitsStr d).toList) :
    c ≠ 'N' := by
  simp only [fracDigitsStr] at hc
  split at hc
  · have hc0 : c = '0' := by simpa using hc
    subst hc0; decide
  · have h1 : c ∈ ([Char.ofNat (48 + d / 1000 % 10), Char.ofNat (48 + d / 100 % 10),
        Char.ofNat (48 + d / 10 % 10), Char.ofNat (48 + d % 10)].reverse.dropWhile
          (fun c => c == Char.ofNat 48)).reverse := hc
    rw [List.mem_reverse] at h1
    have h2 := (List.dropWhile_sublist (fun c => c == Char.ofNat 48)).subset h1
    rw [List.mem_reverse] at h2
    simp only [List.mem_cons, List.not_mem_nil, or_false] at h2
    rcases h2 with h | h | h | h <;>
      (subst h; exact digitChar_ne_N _ (Nat.mod_lt _ (by omega)))

/-- Every character of a formatted number is a sign, dot or digit, hence the
formatted value is never the word `N...`. -/
theorem formatRat_mem (q : ℚ) (c : Char) (hc : c ∈ (formatRat q).toList) : c ≠ 'N' := by
  simp only [formatRat] at hc
  rcases mem_toList_append.mp hc with h | h
  · rcases mem_toList_append.mp h with h1 | h1
    · rcases mem_toList_append.mp h1 with h2 | h2
      · split at h2
        · have hcm : c = '-' := by simpa using h2
          subst hcm; decide
        · simp at h2
      · exact natToStr_mem _ c h2
    · have hcd : c = '.' := by simpa using h1
      subst hcd; decide
  · exact fracDigitsStr_mem _ c h

/-- Every element of a successful `convertParts` run beyond the accumulator is
a formatted number. -/
theorem convertParts_mem (factor : ℚ) :
    ∀ (parts : List String) (counter : ℕ) (acc r : List String),
      convertParts factor parts counter acc = some r →
      ∀ s ∈ r, s ∈ acc ∨ ∃ q : ℚ, s = formatRat q := by
  intro parts
  induction parts with
  | nil =>
    intro counter acc r h s hs
    rw [convertParts] at h
    rw [Option.some_inj.mp h]
    exact Or.inl hs
  | cons p rest ih =>
    intro counter acc r h s hs
    rw [convertParts] at h
    split_ifs at h
    cases hp : parseFloat p with
    | some v =>
      rw [hp] at h
      rcases ih _ _ _ h s hs with hmem | hfmt
      · rcases List.mem_append.mp hmem with h1 | h1
        · exact Or.inl h1
        · exact Or.inr ⟨_, List.mem_singleton.mp h1⟩
      · exact Or.inr hfmt
    | none =>
      rw [hp] at h
      exact ih _ _ _ h s hs

/-- Every character of a space-join comes from the separator or an element. -/
theorem joinSpace_mem :
    ∀ (l : List String) (c : Char), c ∈ (joinSpace l).toList →
      c = ' ' ∨ ∃ s ∈ l, c ∈ s.toList := by
  intro l
  induction l with
  | nil => intro c hc; simp [joinSpace] at hc
  | cons s rest ih =>
    intro c hc
    cases rest with
    | nil => exact Or.inr ⟨s, List.mem_cons_self s [], hc⟩
    | cons t rest' =>
      have hc' : c ∈ (s ++ " " ++ joinSpace (t :: rest')).toList := hc
      rcases mem_toList_append.mp hc' with h | h
      · rcases mem_toList_append.mp h with h1 | h1
        · exact Or.inr ⟨s, List.mem_cons_self s (t :: rest'), h1⟩
        · exact Or.inl (by simpa using h1)
      · rcases ih c h with h1 | ⟨u, hu, hcu⟩
        · exact Or.inl h1
        · exact Or.inr ⟨u, List.mem_cons_of_mem s hu, hcu⟩

/-- Claim C9 amended: unit detection requires the exact (lowercase) unit
symbol as a standalone whitespace token of the punctuation-stripped text — a
substring of another word does not match — and the Height parser returns the
`"No metric"` sentinel exactly when none of the eight unit symbols occurs as
such a token. -/
theorem C9_amended_unit_detection (answer : String) :
    post_process_answer_height answer = "No metric" ↔
      ∀ u ∈ available_units, (pySplit ' ' (stripPunct answer)).contains u = false := by
  constructor
  · intro h
    cases hfind : findUnitBreak (pySplit ' ' (stripPunct answer)) with
    | some m =>
      exfalso
      simp only [post_process_answer_height, hfind] at h
      cases hcv : convertParts (conversion_dict m / 1000)
          (pySplit ' ' (replaceDash (removeBracketsNoDot answer))) 0 [] with
      | none =>
        rw [hcv] at h
        have h' : "Too many numbers" = "No metric" := h
        exact absurd h' (by decide)
      | some r =>
        rw [hcv] at h
        have h' : joinSpace r = "No metric" := h
        have hN : 'N' ∈ (joinSpace r).toList := by rw [h']; decide
        rcases joinSpace_mem r 'N' hN with h1 | ⟨s, hs, hcs⟩
        · exact absurd h1 (by decide)
        · rcases convertParts_mem _ _ _ _ _ hcv s hs with habs | ⟨q, hq⟩
          · exact absurd habs (List.not_mem_nil s)
          · rw [hq] at hcs
            exact formatRat_mem q 'N' hcs rfl
    | none =>
      intro u hu
      rw [findUnitBreak] at hfind
      have h2 := List.find?_eq_none.mp hfind u hu
      simpa using h2
  · intro hall
    have hfind : findUnitBreak (pySplit ' ' (stripPunct answer)) = none := by
      rw [findUnitBreak]
      exact List.find?_eq_none.mpr (fun u hu => by rw [hall u hu]; simp)
    simp only [post_process_answer_height, hfind]

/-- Witness for the amended C9 on a unit-free answer text. -/
theorem C9_amended_witness : post_process_answer_height "tall plant" = "No metric" :=
  (C9_amended_unit_detection "tall plant").mpr (by decide)
